import Mathlib

/-!
Verification of the eventbrite-extractor transform pipeline.

This file gives a shallow embedding of src/eventbrite_extractor/transform.py
and proves properties of the pipeline stages: filtering (cancelled, past,
duplicate events), enrichment (pricing normalization, tag cleaning),
classification (keyword table), projection (display date) and the final
stable sort of transform_events.

Strings are Lean strings; Python truthiness of optional strings (None and ""
are falsy) is modelled explicitly.  Library calls (date.fromisoformat,
datetime.strptime/strftime, str.lower, str.startswith, substring tests) are
modelled as executable Lean functions, restricted to the canonical forms the
repository's data model promises.
-/

namespace EventbriteExtractor

/-- Python truthiness of an optional string: None and the empty string are falsy. -/
def truthy : Option String → Bool
  | none => false
  | some s => s != ""

/-- The Python idiom (x or dflt) on an optional string: the default replaces an
absent or empty value. -/
def orElseStr (x : Option String) (dflt : String) : String :=
  match x with
  | none => dflt
  | some s => if s = "" then dflt else s

/-- Modelled from the spec: the Event record of eventbrite_extractor/models.py,
which is not under src/; the fields are taken from the data-model section of
the spec (strings, optional strings, booleans, and an ordered tag list). -/
structure Event where
  event_id : String
  title : String
  start_date : Option String
  end_date : Option String
  start_time : Option String
  end_time : Option String
  timezone : String
  is_cancelled : Bool
  is_free : Bool
  is_online : Bool
  price : Option String
  currency : Option String
  venue_name : Option String
  tags : List String
  summary : Option String
  url : Option String
  deriving DecidableEq, Repr

/-- A calendar date, modelling Python datetime.date. -/
structure Date where
  year : Nat
  month : Nat
  day : Nat
  deriving DecidableEq, Repr

/-- Date comparison a ≤ b, modelling Python date ordering (lexicographic on
year, month, day). -/
def dateLE (a b : Date) : Bool :=
  a.year < b.year ||
    (a.year == b.year && (a.month < b.month ||
      (a.month == b.month && a.day ≤ b.day)))

/-- Gregorian leap-year rule, as used by Python datetime. -/
def isLeap (y : Nat) : Bool := y % 4 == 0 && (y % 100 != 0 || y % 400 == 0)

/-- Number of days in a month, as used by Python datetime. -/
def daysInMonth (y m : Nat) : Nat :=
  if m == 2 then (if isLeap y then 29 else 28)
  else if m == 4 || m == 6 || m == 9 || m == 11 then 30
  else 31

/-- Numeric value of a decimal digit character, none for a non-digit. -/
def digitVal (c : Char) : Option Nat :=
  if c.isDigit then some (c.toNat - 48) else none

/-- Modelled library behavior: Python date.fromisoformat restricted to the
canonical zero-padded YYYY-MM-DD form promised by the repository's data model;
returns none exactly where the library raises ValueError (wrong shape,
non-digits, month or day out of range, year 0). -/
def date_fromisoformat (s : String) : Option Date :=
  match s.data with
  | [y1, y2, y3, y4, h1, m1, m2, h2, d1, d2] =>
    match digitVal y1, digitVal y2, digitVal y3, digitVal y4,
          digitVal m1, digitVal m2, digitVal d1, digitVal d2 with
    | some a, some b, some c, some d, some m, some n, some p, some q =>
      if h1 = '-' ∧ h2 = '-' then
        let year := ((a * 10 + b) * 10 + c) * 10 + d
        let month := m * 10 + n
        let day := p * 10 + q
        if 1 ≤ year ∧ 1 ≤ month ∧ month ≤ 12 ∧ 1 ≤ day ∧ day ≤ daysInMonth year month
        then some ⟨year, month, day⟩
        else none
      else none
    | _, _, _, _, _, _, _, _ => none
  | _ => none

/-- transform.py filter_cancelled: remove cancelled events, preserving order. -/
def filter_cancelled (events : List Event) : List Event :=
  events.filter (fun e => !e.is_cancelled)

/-- transform.py filter_past_events with an explicit cutoff (the code defaults
the cutoff to the current date when not supplied): keep events with a falsy
start_date, keep events whose start_date fails to parse, keep events whose
parsed date is on or after the cutoff, drop the rest. -/
def filter_past_events (events : List Event) (cutoff : Date) : List Event :=
  match events with
  | [] => []
  | event :: rest =>
    if !truthy event.start_date then
      event :: filter_past_events rest cutoff
    else
      match date_fromisoformat (event.start_date.getD "") with
      | some event_date =>
        if dateLE cutoff event_date then event :: filter_past_events rest cutoff
        else filter_past_events rest cutoff
      | none => event :: filter_past_events rest cutoff

/-- The seen-set loop shared by transform.py deduplicate and clean_tags: keep
each element whose key has not been seen before, accumulating seen keys. -/
def dedupFirstBy (key : α → String) (seen : List String) : List α → List α
  | [] => []
  | x :: rest =>
    if key x ∈ seen then dedupFirstBy key seen rest
    else x :: dedupFirstBy key (key x :: seen) rest

/-- transform.py deduplicate: remove duplicate events by event_id, keeping the
first occurrence of each id. -/
def deduplicate (events : List Event) : List Event :=
  dedupFirstBy (fun e => e.event_id) [] events

/-- Modelled library behavior: Python str.lower, lowercasing character-wise
(the repository's tags and keywords are ASCII). -/
def strLower (s : String) : String := String.mk (s.data.map Char.toLower)

/-- transform.py clean_tags: drop tags equal case-insensitively to an earlier
tag, keeping the first-seen casing and order. -/
def clean_tags (event : Event) : Event :=
  { event with tags := dedupFirstBy (fun t => strLower t) [] event.tags }

/-- The textual zero prices recognized by transform.py normalize_pricing. -/
def zero_price_forms : List String := ["0.00", "0", "0.0"]

/-- Whether the optional price is one of the textual zero forms (Python:
event.price in ("0.00", "0", "0.0"); None is not a member). -/
def is_zero_price (price : Option String) : Bool :=
  match price with
  | some p => zero_price_forms.contains p
  | none => false

/-- The fixed currency-symbol table of transform.py normalize_pricing. -/
def currency_symbols : List (String × String) :=
  [("USD", "$"), ("EUR", "€"), ("GBP", "£"), ("CAD", "CA$")]

/-- Modelled library behavior: Python str.startswith, on character lists. -/
def strStarts (s p : String) : Bool := p.data.isPrefixOf s.data

/-- transform.py normalize_pricing, first statement group: the zero-price rule
and the is_free clearing rule (if / elif). -/
def apply_free_rules (event : Event) : Event :=
  if is_zero_price event.price then
    { event with is_free := true, price := none, currency := none }
  else if event.is_free then
    { event with price := none, currency := none }
  else event

/-- transform.py normalize_pricing, second statement group: when price and
currency are both truthy, resolve the currency symbol (table hit, or the code
followed by one space) and prefix the price with it unless it already starts
with that symbol. -/
def apply_currency_symbol (event : Event) : Event :=
  if truthy event.price && truthy event.currency then
    let code := event.currency.getD ""
    let symbol := (currency_symbols.lookup code).getD (code ++ " ")
    if strStarts (event.price.getD "") symbol then event
    else { event with price := some (symbol ++ event.price.getD "") }
  else event

/-- transform.py normalize_pricing: both statement groups in source order. -/
def normalize_pricing (event : Event) : Event :=
  apply_currency_symbol (apply_free_rules event)

/-- The currency marker resolved inside apply_currency_symbol: the table
symbol for a known code, otherwise the code followed by one space. -/
def resolved_symbol (e : Event) : String :=
  (currency_symbols.lookup (e.currency.getD "")).getD (e.currency.getD "" ++ " ")

/-- Modelled library behavior: the Python substring test (sub in s), on
character lists: the empty list is a sublist of everything. -/
def listContainsSub (sub : List Char) : List Char → Bool
  | [] => sub.isEmpty
  | c :: rest => sub.isPrefixOf (c :: rest) || listContainsSub sub rest

/-- Python substring containment (sub in s) on strings. -/
def containsSubstr (s sub : String) : Bool := listContainsSub sub.data s.data

/-- transform.py _EVENT_TYPE_KEYWORDS: the fixed ordered category table
(Python dicts iterate in insertion order). -/
def _EVENT_TYPE_KEYWORDS : List (String × List String) :=
  [("Conference", ["conference", "summit", "symposium", "forum"]),
   ("Workshop", ["workshop", "hands-on", "bootcamp", "training", "masterclass"]),
   ("Meetup", ["meetup", "meet-up", "networking", "mixer", "happy hour"]),
   ("Webinar", ["webinar", "online session", "virtual talk"]),
   ("Seminar", ["seminar", "talk", "lecture", "panel", "fireside chat"]),
   ("Hackathon", ["hackathon", "hack day", "buildathon"]),
   ("Course", ["course", "class", "certification", "program"])]

/-- transform.py classify_event_type: the lowercase search string built from
the tags followed by the title, joined by single spaces. -/
def searchable_text (event : Event) : String :=
  strLower (String.intercalate " " (event.tags ++ [event.title]))

/-- transform.py classify_event_type, the nested loop over the keyword table:
return the first category with a keyword occurring in the search string. -/
def classify_search (searchable : String) : List (String × List String) → String
  | [] => "Event"
  | (event_type, keywords) :: rest =>
    if keywords.any (fun k => containsSubstr searchable k) then event_type
    else classify_search searchable rest

/-- transform.py classify_event_type. -/
def classify_event_type (event : Event) : String :=
  classify_search (searchable_text event) _EVENT_TYPE_KEYWORDS

/-- A date with a time of day, modelling Python datetime.datetime as far as
the pipeline uses it. -/
structure DateTime where
  date : Date
  hour : Nat
  minute : Nat
  deriving DecidableEq, Repr

/-- Modelled library behavior: datetime.strptime with format
"%Y-%m-%d %H:%M", restricted to zero-padded fields; none exactly where the
library raises ValueError. -/
def strptime_ymd_hm (s : String) : Option DateTime :=
  match s.data with
  | [y1, y2, y3, y4, a1, m1, m2, a2, d1, d2, sp, h1, h2, col, n1, n2] =>
    if sp = ' ' ∧ col = ':' then
      match date_fromisoformat (String.mk [y1, y2, y3, y4, a1, m1, m2, a2, d1, d2]),
            digitVal h1, digitVal h2, digitVal n1, digitVal n2 with
      | some d, some u1, some u2, some v1, some v2 =>
        let hour := u1 * 10 + u2
        let minute := v1 * 10 + v2
        if hour ≤ 23 ∧ minute ≤ 59 then some ⟨d, hour, minute⟩ else none
      | _, _, _, _, _ => none
    else none
  | _ => none

/-- Day of the week by Sakamoto's method, 0 meaning Sunday; models the weekday
behind strftime %a. -/
def dayOfWeek (d : Date) : Nat :=
  let t := [0, 3, 2, 5, 0, 3, 5, 1, 4, 6, 2, 4]
  let y := if d.month < 3 then d.year - 1 else d.year
  (y + y / 4 - y / 100 + y / 400 + t.getD (d.month - 1) 0 + d.day) % 7

/-- Three-letter weekday names for strftime %a, indexed from Sunday. -/
def weekday_names : List String := ["Sun", "Mon", "Tue", "Wed", "Thu", "Fri", "Sat"]

/-- Three-letter month names for strftime %b. -/
def month_names : List String :=
  ["Jan", "Feb", "Mar", "Apr", "May", "Jun", "Jul", "Aug", "Sep", "Oct", "Nov", "Dec"]

/-- A natural number rendered with at least two digits. -/
def pad2 (n : Nat) : String := if n < 10 then "0" ++ toString n else toString n

/-- A natural number rendered with at least four digits. -/
def pad4 (n : Nat) : String :=
  if n < 10 then "000" ++ toString n
  else if n < 100 then "00" ++ toString n
  else if n < 1000 then "0" ++ toString n
  else toString n

/-- Modelled library behavior: strftime with the fixed format
"%a, %b %d, %Y at %I:%M %p" used by transform.py format_display_date. -/
def strftime_display (dt : DateTime) : String :=
  let hour12 := (dt.hour + 11) % 12 + 1
  let ampm := if dt.hour < 12 then "AM" else "PM"
  weekday_names.getD (dayOfWeek dt.date) "" ++ ", " ++
    month_names.getD (dt.date.month - 1) "" ++ " " ++ pad2 dt.date.day ++ ", " ++
    pad4 dt.date.year ++ " at " ++ pad2 hour12 ++ ":" ++ pad2 dt.minute ++ " " ++ ampm

/-- transform.py format_display_date: none on a falsy start_date; otherwise
compose start_date with start_time (default "00:00") and format it; on a parse
failure fall back to the raw start_date. -/
def format_display_date (event : Event) : Option String :=
  if !truthy event.start_date then none
  else
    let sd := event.start_date.getD ""
    match strptime_ymd_hm (sd ++ " " ++ orElseStr event.start_time "00:00") with
    | some dt => some (strftime_display dt)
    | none => some sd

/-- Modelled from the spec: the output record built in transform_events from
Event.to_dict (models.py is not under src/) plus the four derived display
fields; it carries all original fields (the base event) and the derived ones. -/
structure OutRecord where
  base : Event
  event_type : String
  display_date : Option String
  display_price : String
  location : String
  deriving DecidableEq, Repr

/-- The start_date field carried over into the output record. -/
def OutRecord.start_date (r : OutRecord) : Option String := r.base.start_date

/-- transform.py transform_events, stages 1 to 7: filter cancelled, filter
past, deduplicate, then per event normalize pricing, clean tags, classify, and
build the output record; this is the list before the final sort. -/
def transform_enriched (events : List Event) (cutoff : Date) : List OutRecord :=
  let events1 := filter_cancelled events
  let events2 := filter_past_events events1 cutoff
  let events3 := deduplicate events2
  events3.map (fun ev =>
    let ev1 := clean_tags (normalize_pricing ev)
    { base := ev1,
      event_type := classify_event_type ev1,
      display_date := format_display_date ev1,
      display_price := if ev1.is_free then "Free" else orElseStr ev1.price "See event page",
      location := if ev1.is_online then "Online" else orElseStr ev1.venue_name "TBD" })

/-- The key of the final sort in transform_events: start_date, with an absent
or empty value replaced by the sentinel (Python: e.get("start_date") or
"9999-99-99"). -/
def sortKey (r : OutRecord) : String := orElseStr r.base.start_date "9999-99-99"

/-- Lexicographic strict order on character lists, modelling Python string
comparison by code points (executable form of the List order). -/
def listLtChar : List Char → List Char → Bool
  | _, [] => false
  | [], _ :: _ => true
  | a :: as, b :: bs => if a < b then true else if b < a then false else listLtChar as bs

/-- Python string comparison a < b. -/
def pyStrLt (a b : String) : Bool := listLtChar a.data b.data

/-- Python string comparison a ≤ b, as the sort uses it: not (b < a). -/
def pyStrLE (a b : String) : Bool := !pyStrLt b a

/-- The comparison the final sort uses: ascending by sort key. -/
def recordLE (a b : OutRecord) : Bool := sortKey a ≤ sortKey b

/-- transform.py transform_events: the full pipeline; Python list.sort with a
key is a stable sort, modelled by the stable mergeSort on the key comparison. -/
def transform_events (events : List Event) (cutoff : Date) : List OutRecord :=
  (transform_enriched events cutoff).mergeSort recordLE

/-! Specification-side definitions: statements of claimed properties, written
from the spec's words, to be compared with the definitions above. -/

/-- The spec's claimed sort shape on the output list: no record without a
start_date ever precedes a record that has one. -/
def undated_after_dated (l : List OutRecord) : Prop :=
  l.Pairwise (fun a b => a.start_date.isSome = false → b.start_date.isSome = false)

/-- The spec's first pricing outcome: the event is free and carries no price
and no currency. -/
def pricing_free_invariant (e : Event) : Bool :=
  e.is_free && e.price.isNone && e.currency.isNone

/-- The spec's second pricing outcome: the price is present (truthy), and it
starts with the resolved currency symbol whenever the currency is a code known
to the symbol table. -/
def pricing_priced_invariant (e : Event) : Bool :=
  truthy e.price &&
    (match e.currency with
     | some c =>
       match currency_symbols.lookup c with
       | some sym => strStarts (e.price.getD "") sym
       | none => true
     | none => true)

/-- The pricing outcome the spec's dichotomy misses: a non-free event without
a (truthy) price. -/
def pricing_unpriced_state (e : Event) : Bool := !e.is_free && !truthy e.price

/-- Exactly one of three booleans is true. -/
def exactlyOneOfThree (a b c : Bool) : Prop :=
  (a = true ∧ b = false ∧ c = false) ∨ (a = false ∧ b = true ∧ c = false) ∨
    (a = false ∧ b = false ∧ c = true)

/-- The pricing rules exactly as the claim words them: zero price wins, then
the is_free clearing, then — whenever price and currency are both present —
unconditional prefixing with the resolved symbol (no already-prefixed guard). -/
def normalize_pricing_claimed (e : Event) : Event :=
  if is_zero_price e.price then { e with is_free := true, price := none, currency := none }
  else if e.is_free then { e with price := none, currency := none }
  else if truthy e.price && truthy e.currency then
    let code := e.currency.getD ""
    let symbol := (currency_symbols.lookup code).getD (code ++ " ")
    { e with price := some (symbol ++ e.price.getD "") }
  else e

/-- The pricing rules as the claim words them, amended with the guard the code
actually has: a price already starting with the resolved symbol is unchanged. -/
def normalize_pricing_spec (e : Event) : Event :=
  if is_zero_price e.price then { e with is_free := true, price := none, currency := none }
  else if e.is_free then { e with price := none, currency := none }
  else if truthy e.price && truthy e.currency then
    let code := e.currency.getD ""
    let symbol := (currency_symbols.lookup code).getD (code ++ " ")
    if strStarts (e.price.getD "") symbol then e
    else { e with price := some (symbol ++ e.price.getD "") }
  else e

/-- The past-event filter's keep condition as the claim words it: keep when
start_date is absent, fails to parse, or parses on or after the cutoff. -/
def keep_past_spec (cutoff : Date) (e : Event) : Bool :=
  match e.start_date with
  | none => true
  | some s =>
    match date_fromisoformat s with
    | none => true
    | some d => dateLE cutoff d

/-- The display-date derivation as the claim words it: absent (falsy)
start_date gives an absent result; otherwise start_date is composed with
start_time (default "00:00") and formatted, falling back to the raw
start_date when parsing fails. -/
def format_display_date_spec (event : Event) : Option String :=
  match event.start_date with
  | none => none
  | some sd =>
    if sd = "" then none
    else
      match strptime_ymd_hm (sd ++ " " ++ orElseStr event.start_time "00:00") with
      | some dt => some (strftime_display dt)
      | none => some sd

/-! Concrete inputs used by counterexamples and witnesses. -/

/-- An event with every optional field absent and every flag false. -/
def emptyEvent : Event :=
  { event_id := "", title := "", start_date := none, end_date := none,
    start_time := none, end_time := none, timezone := "", is_cancelled := false,
    is_free := false, is_online := false, price := none, currency := none,
    venue_name := none, tags := [], summary := none, url := none }

/-- An event whose price already carries its currency symbol. -/
def evPrefixedPrice : Event :=
  { emptyEvent with price := some "$25.00", currency := some "USD" }

/-- First of two distinct events sharing the empty event_id. -/
def evEmptyIdA : Event := { emptyEvent with title := "A" }

/-- Second of two distinct events sharing the empty event_id. -/
def evEmptyIdB : Event := { emptyEvent with title := "B" }

/-- An event with no start_date. -/
def evNoDate : Event := { emptyEvent with event_id := "a" }

/-- An event whose start_date is an unparseable string that sorts above the
sentinel "9999-99-99". -/
def evTildeDate : Event := { emptyEvent with event_id := "b", start_date := some "~" }

/-- A fixed cutoff date for the concrete pipeline runs. -/
def cutoff0 : Date := ⟨2025, 1, 1⟩

/-- The claim's display-date example: 2026-03-01 at 14:00. -/
def evMar1 : Event :=
  { emptyEvent with start_date := some "2026-03-01", start_time := some "14:00" }

/-- The claim's display-date example without a start_time. -/
def evMar1NoTime : Event := { emptyEvent with start_date := some "2026-03-01" }

/-! General helper lemmas. -/

theorem truthy_some_false_iff (s : String) : truthy (some s) = false ↔ s = "" := by
  simp [truthy]

theorem orElseStr_of_falsy (x : Option String) (d : String) (h : truthy x = false) :
    orElseStr x d = d := by
  cases x with
  | none => rfl
  | some s =>
    rw [truthy_some_false_iff] at h
    simp [orElseStr, h]

/-! Lemmas on the shared first-occurrence deduplication loop. -/

theorem dedupFirstBy_sublist (key : α → String) (seen : List String) (xs : List α) :
    (dedupFirstBy key seen xs).Sublist xs := by
  induction xs generalizing seen with
  | nil => simp [dedupFirstBy]
  | cons x rest ih =>
    simp only [dedupFirstBy]
    by_cases h : key x ∈ seen
    · rw [if_pos h]; exact (ih seen).cons x
    · rw [if_neg h]; exact (ih (key x :: seen)).cons₂ x

theorem mem_dedupFirstBy_key_not_seen (key : α → String) (seen : List String) (xs : List α) :
    ∀ y ∈ dedupFirstBy key seen xs, key y ∉ seen := by
  induction xs generalizing seen with
  | nil => intro y hy; simp [dedupFirstBy] at hy
  | cons x rest ih =>
    intro y hy
    simp only [dedupFirstBy] at hy
    by_cases h : key x ∈ seen
    · rw [if_pos h] at hy
      exact ih seen y hy
    · rw [if_neg h] at hy
      rcases List.mem_cons.mp hy with rfl | hy2
      · exact h
      · have h2 := ih (key x :: seen) y hy2
        intro hk
        exact h2 (List.mem_cons_of_mem _ hk)

theorem dedupFirstBy_pairwise (key : α → String) (seen : List String) (xs : List α) :
    (dedupFirstBy key seen xs).Pairwise (fun a b => key a ≠ key b) := by
  induction xs generalizing seen with
  | nil => simp [dedupFirstBy]
  | cons x rest ih =>
    simp only [dedupFirstBy]
    by_cases h : key x ∈ seen
    · rw [if_pos h]; exact ih seen
    · rw [if_neg h]
      refine List.Pairwise.cons ?_ (ih (key x :: seen))
      intro y hy he
      have h2 := mem_dedupFirstBy_key_not_seen key (key x :: seen) rest y hy
      exact h2 (he ▸ List.mem_cons_self (key x) seen)

theorem dedupFirstBy_filter (key : α → String) (seen : List String) (xs : List α)
    (k : String) :
    (dedupFirstBy key seen xs).filter (fun y => key y == k) =
      if k ∈ seen then [] else (xs.find? (fun y => key y == k)).toList := by
  induction xs generalizing seen with
  | nil => simp [dedupFirstBy]
  | cons x rest ih =>
    simp only [dedupFirstBy]
    by_cases hx : key x ∈ seen
    · rw [if_pos hx, ih seen]
      by_cases hk : k ∈ seen
      · rw [if_pos hk, if_pos hk]
      · rw [if_neg hk, if_neg hk, List.find?_cons]
        have hne : (key x == k) = false := by
          rw [beq_eq_false_iff_ne]
          intro he
          exact hk (he ▸ hx)
        rw [hne]
    · rw [if_neg hx, List.filter_cons, ih (key x :: seen)]
      by_cases hxk : key x = k
      · have hks : k ∉ seen := fun hk => hx (hxk ▸ hk)
        rw [if_pos (by rw [hxk, beq_self_eq_true]), if_pos (hxk ▸ List.mem_cons_self _ _),
          if_neg hks, List.find?_cons, show (key x == k) = true by rw [hxk, beq_self_eq_true]]
        rfl
      · have hne : (key x == k) = false := beq_eq_false_iff_ne.mpr hxk
        rw [if_neg (by rw [hne]; exact Bool.false_ne_true)]
        have hmem : (k ∈ key x :: seen) ↔ (k ∈ seen) := by
          constructor
          · intro h
            rcases List.mem_cons.mp h with he | h2
            · exact absurd he.symm hxk
            · exact h2
          · exact List.mem_cons_of_mem _
        by_cases hk : k ∈ seen
        · rw [if_pos (hmem.mpr hk), if_pos hk]
        · rw [if_neg (fun h => hk (hmem.mp h)), if_neg hk, List.find?_cons, hne]

/-- Claim C6: deduplicate returns a subsequence of the input (order preserved,
length at most the input's) whose event ids are pairwise distinct, and for
every id the surviving records with that id are exactly the first occurrence
of that id in the input (empty when the id does not occur). -/
theorem C6_deduplicate_first_occurrence :
    ∀ l : List Event,
      (deduplicate l).Sublist l ∧
      (deduplicate l).length ≤ l.length ∧
      (deduplicate l).Pairwise (fun a b => a.event_id ≠ b.event_id) ∧
      ∀ i : String,
        (deduplicate l).filter (fun e => e.event_id == i) =
          (l.find? (fun e => e.event_id == i)).toList := by
  intro l
  refine ⟨dedupFirstBy_sublist _ [] l, (dedupFirstBy_sublist _ [] l).length_le,
    dedupFirstBy_pairwise _ [] l, ?_⟩
  intro i
  have h := dedupFirstBy_filter (fun e : Event => e.event_id) [] l i
  simpa using h

/-- Claim C7, counterexample: two distinct events both carrying the empty
event_id do collide in deduplicate — only the first survives, the second is
dropped as a duplicate of it. -/
theorem C7_counterexample :
    deduplicate [evEmptyIdA, evEmptyIdB] = [evEmptyIdA] ∧ evEmptyIdA ≠ evEmptyIdB := by
  constructor
  · decide
  · decide

/-- Claim C7 (amended): the empty-string event_id is treated as a normal
deduplication key, so empty-id events do collide: at most one record with
empty id survives, namely the first-seen one. -/
theorem C7_amended_empty_id_collides :
    ∀ l : List Event,
      ((deduplicate l).filter (fun e => e.event_id == "")).length ≤ 1 ∧
      (deduplicate l).filter (fun e => e.event_id == "") =
        (l.find? (fun e => e.event_id == "")).toList := by
  intro l
  have h := dedupFirstBy_filter (fun e : Event => e.event_id) [] l ""
  simp only [List.not_mem_nil, if_false] at h
  refine ⟨?_, h⟩
  rw [show deduplicate l = dedupFirstBy (fun e : Event => e.event_id) [] l from rfl, h]
  cases l.find? (fun e => e.event_id == "") <;> simp

/-- Claim C10: after clean_tags, no two tags are case-insensitively equal, the
tag list is a subsequence of the original (order of first occurrences
preserved), and for each lowercase form the surviving tags are exactly the
first-seen casing of that form. -/
theorem C10_clean_tags :
    ∀ e : Event,
      (clean_tags e).tags.Pairwise (fun a b => strLower a ≠ strLower b) ∧
      (clean_tags e).tags.Sublist e.tags ∧
      ∀ k : String,
        (clean_tags e).tags.filter (fun t => strLower t == k) =
          (e.tags.find? (fun t => strLower t == k)).toList := by
  intro e
  refine ⟨dedupFirstBy_pairwise _ [] e.tags, dedupFirstBy_sublist _ [] e.tags, ?_⟩
  intro k
  have h := dedupFirstBy_filter (fun t : String => strLower t) [] e.tags k
  simpa using h

/-! The past-event filter. -/

/-- Claim C5: with an explicit cutoff, filter_past_events is exactly the
subsequence filter by the claimed keep condition: keep events whose start_date
is absent, fails to parse as an ISO date, or parses to a date on or after the
cutoff (inclusive). -/
theorem C5_filter_past_events_spec :
    ∀ (events : List Event) (cutoff : Date),
      filter_past_events events cutoff = events.filter (keep_past_spec cutoff) := by
  intro events cutoff
  induction events with
  | nil => rfl
  | cons e rest ih =>
    simp only [filter_past_events, List.filter_cons]
    cases hsd : e.start_date with
    | none =>
      simp [truthy, keep_past_spec, hsd, ih]
    | some s =>
      by_cases hs : s = ""
      · subst hs
        simp [truthy, keep_past_spec, hsd, ih, date_fromisoformat]
      · have ht : truthy e.start_date = true := by
          rw [hsd]
          simp [truthy, hs]
        cases hp : date_fromisoformat s with
        | none =>
          simp [ht, keep_past_spec, hsd, hp, ih]
        | some d =>
          by_cases hle : dateLE cutoff d = true
          · simp [truthy, hs, keep_past_spec, hsd, hp, hle, ih]
          · simp [truthy, hs, keep_past_spec, hsd, hp, hle, ih]

/-! Classification. -/

theorem classify_search_eq_first (s : String) (table : List (String × List String)) :
    classify_search s table =
      ((table.find? (fun p => p.2.any (fun k => containsSubstr s k))).map
        Prod.fst).getD "Event" := by
  induction table with
  | nil => rfl
  | cons p rest ih =>
    obtain ⟨ty, kws⟩ := p
    simp only [classify_search, List.find?_cons]
    by_cases h : kws.any (fun k => containsSubstr s k) = true
    · simp [h]
    · rw [Bool.not_eq_true] at h
      simp [h, ih]

/-- Claim C8: classify_event_type returns the first category of the fixed
table (iterated in its listed order) having a keyword that is a substring of
the lowercase search string built from tags then title, and "Event" when no
keyword matches; the table's category order is Conference, Workshop, Meetup,
Webinar, Seminar, Hackathon, Course. -/
theorem C8_classify_first_match :
    (∀ e : Event,
      classify_event_type e =
        ((_EVENT_TYPE_KEYWORDS.find?
          (fun p => p.2.any (fun k => containsSubstr (searchable_text e) k))).map
            Prod.fst).getD "Event") ∧
    _EVENT_TYPE_KEYWORDS.map Prod.fst =
      ["Conference", "Workshop", "Meetup", "Webinar", "Seminar", "Hackathon", "Course"] := by
  exact ⟨fun e => classify_search_eq_first (searchable_text e) _EVENT_TYPE_KEYWORDS, rfl⟩

/-! String lemmas about currency symbols and zero-price forms. -/

theorem strStarts_append_self (sym p : String) : strStarts (sym ++ p) sym = true := by
  rw [strStarts, List.isPrefixOf_iff_prefix, String.data_append]
  exact List.prefix_append _ _

theorem append_ne_empty_left (s p : String) (h : s.data ≠ []) : s ++ p ≠ "" := by
  intro he
  have h2 : (s ++ p).data = [] := congrArg String.data he
  rw [String.data_append] at h2
  exact h (List.append_eq_nil.mp h2).1

theorem truthy_append (s p : String) (h : s.data ≠ []) : truthy (some (s ++ p)) = true := by
  simp only [truthy]
  rw [bne_iff_ne]
  exact append_ne_empty_left s p h

theorem not_zero_form_of_head (x : String) (c : Char) (h : x.data.head? = some c)
    (hc : c ≠ '0') : zero_price_forms.contains x = false := by
  by_contra hx
  rw [Bool.not_eq_false] at hx
  have hmem : x ∈ zero_price_forms := by simpa using hx
  simp only [zero_price_forms, List.mem_cons, List.not_mem_nil, or_false] at hmem
  rcases hmem with rfl | rfl | rfl
  · exact hc (Option.some.inj h).symm
  · exact hc (Option.some.inj h).symm
  · exact hc (Option.some.inj h).symm

theorem not_zero_form_of_space (x : String) (h : ' ' ∈ x.data) :
    zero_price_forms.contains x = false := by
  by_contra hx
  rw [Bool.not_eq_false] at hx
  have hmem : x ∈ zero_price_forms := by simpa using hx
  simp only [zero_price_forms, List.mem_cons, List.not_mem_nil, or_false] at hmem
  rcases hmem with rfl | rfl | rfl
  · exact absurd h (by decide)
  · exact absurd h (by decide)
  · exact absurd h (by decide)

theorem lookup_symbol_cases (code : String) :
    (currency_symbols.lookup code).getD (code ++ " ") ∈ (["$", "€", "£", "CA$"] : List String) ∨
    (currency_symbols.lookup code).getD (code ++ " ") = code ++ " " := by
  simp only [currency_symbols, List.lookup]
  cases code == "USD" <;> cases code == "EUR" <;> cases code == "GBP" <;>
    cases code == "CAD" <;> simp

theorem symbol_data_ne_nil (code : String) :
    ((currency_symbols.lookup code).getD (code ++ " ")).data ≠ [] := by
  rcases lookup_symbol_cases code with h | h
  · simp only [List.mem_cons, List.not_mem_nil, or_false] at h
    rcases h with h | h | h | h <;> rw [h] <;> decide
  · rw [h]
    intro hnil
    rw [String.data_append] at hnil
    exact absurd (List.append_eq_nil.mp hnil).2 (by decide)

theorem symbol_append_not_zero (code p : String) :
    is_zero_price (some ((currency_symbols.lookup code).getD (code ++ " ") ++ p)) = false := by
  simp only [is_zero_price]
  rcases lookup_symbol_cases code with h | h
  · simp only [List.mem_cons, List.not_mem_nil, or_false] at h
    rcases h with h | h | h | h <;> rw [h]
    · exact not_zero_form_of_head _ '$' rfl (by decide)
    · exact not_zero_form_of_head _ '€' rfl (by decide)
    · exact not_zero_form_of_head _ '£' rfl (by decide)
    · exact not_zero_form_of_head _ 'C' rfl (by decide)
  · rw [h]
    apply not_zero_form_of_space
    rw [String.data_append, String.data_append]
    simp

/-! Case lemmas for the two statement groups of normalize_pricing. -/

theorem apply_free_rules_of_zero (e : Event) (h : is_zero_price e.price = true) :
    apply_free_rules e = { e with is_free := true, price := none, currency := none } := by
  simp [apply_free_rules, h]

theorem apply_free_rules_of_free (e : Event) (h1 : is_zero_price e.price = false)
    (h2 : e.is_free = true) :
    apply_free_rules e = { e with price := none, currency := none } := by
  simp [apply_free_rules, h1, h2]

theorem apply_free_rules_of_other (e : Event) (h1 : is_zero_price e.price = false)
    (h2 : e.is_free = false) : apply_free_rules e = e := by
  simp [apply_free_rules, h1, h2]

theorem apply_currency_symbol_not_both (e : Event)
    (h : (truthy e.price && truthy e.currency) = false) : apply_currency_symbol e = e := by
  simp [apply_currency_symbol, h]

theorem apply_currency_symbol_of_started (e : Event)
    (h : (truthy e.price && truthy e.currency) = true)
    (hsw : strStarts (e.price.getD "") (resolved_symbol e) = true) :
    apply_currency_symbol e = e := by
  simp only [resolved_symbol] at hsw
  simp [apply_currency_symbol, h, hsw]

theorem apply_currency_symbol_of_unstarted (e : Event)
    (h : (truthy e.price && truthy e.currency) = true)
    (hsw : strStarts (e.price.getD "") (resolved_symbol e) = false) :
    apply_currency_symbol e = { e with price := some (resolved_symbol e ++ e.price.getD "") } := by
  simp only [resolved_symbol] at hsw ⊢
  simp [apply_currency_symbol, h, hsw]

theorem resolved_symbol_append_not_zero (e : Event) (p : String) :
    is_zero_price (some (resolved_symbol e ++ p)) = false :=
  symbol_append_not_zero (e.currency.getD "") p

theorem resolved_symbol_data_ne_nil (e : Event) : (resolved_symbol e).data ≠ [] :=
  symbol_data_ne_nil (e.currency.getD "")

theorem normalize_pricing_fixed_free (r : Event) (hp : r.price = none)
    (hc : r.currency = none) (hf : r.is_free = true) : normalize_pricing r = r := by
  have h1 : apply_free_rules r = r := by
    rw [apply_free_rules_of_free r (by rw [hp]; rfl) hf]
    cases r
    simp_all
  show apply_currency_symbol (apply_free_rules r) = r
  rw [h1]
  exact apply_currency_symbol_not_both r (by rw [hp]; rfl)

theorem normalize_pricing_idem (e : Event) :
    normalize_pricing (normalize_pricing e) = normalize_pricing e := by
  by_cases hz : is_zero_price e.price = true
  · have h1 : normalize_pricing e = { e with is_free := true, price := none, currency := none } := by
      show apply_currency_symbol (apply_free_rules e) = _
      rw [apply_free_rules_of_zero e hz]
      exact apply_currency_symbol_not_both
        { e with is_free := true, price := none, currency := none } rfl
    rw [h1, normalize_pricing_fixed_free _ rfl rfl rfl]
  · rw [Bool.not_eq_true] at hz
    by_cases hf : e.is_free = true
    · have h1 : normalize_pricing e = { e with price := none, currency := none } := by
        show apply_currency_symbol (apply_free_rules e) = _
        rw [apply_free_rules_of_free e hz hf]
        exact apply_currency_symbol_not_both { e with price := none, currency := none } rfl
      rw [h1, normalize_pricing_fixed_free { e with price := none, currency := none } rfl rfl hf]
    · rw [Bool.not_eq_true] at hf
      show apply_currency_symbol (apply_free_rules (normalize_pricing e)) = normalize_pricing e
      rw [show normalize_pricing e = apply_currency_symbol e from by
        show apply_currency_symbol (apply_free_rules e) = _
        rw [apply_free_rules_of_other e hz hf]]
      by_cases hc : (truthy e.price && truthy e.currency) = true
      · by_cases hsw : strStarts (e.price.getD "") (resolved_symbol e) = true
        · rw [apply_currency_symbol_of_started e hc hsw, apply_free_rules_of_other e hz hf,
            apply_currency_symbol_of_started e hc hsw]
        · rw [Bool.not_eq_true] at hsw
          rw [apply_currency_symbol_of_unstarted e hc hsw]
          have hz2 : is_zero_price
              (Event.price { e with price := some (resolved_symbol e ++ e.price.getD "") }) =
                false :=
            resolved_symbol_append_not_zero e (e.price.getD "")
          rw [apply_free_rules_of_other _ hz2 hf]
          apply apply_currency_symbol_of_started
          · have hcc : truthy e.currency = true := by
              rw [Bool.and_eq_true] at hc
              exact hc.2
            have hcp : truthy (some (resolved_symbol e ++ e.price.getD "")) = true :=
              truthy_append _ _ (resolved_symbol_data_ne_nil e)
            show (truthy (some (resolved_symbol e ++ e.price.getD "")) && truthy e.currency) = true
            rw [hcp, hcc]
            rfl
          · exact strStarts_append_self (resolved_symbol e) (e.price.getD "")
      · rw [Bool.not_eq_true] at hc
        rw [apply_currency_symbol_not_both e hc, apply_free_rules_of_other e hz hf,
          apply_currency_symbol_not_both e hc]

/-- Claim C4: normalize_pricing is idempotent on the pricing fields — applying
it twice leaves is_free, price and currency as after one application (in
particular no double currency-symbol prefixing). -/
theorem C4_normalize_pricing_idempotent :
    ∀ e : Event,
      (normalize_pricing (normalize_pricing e)).is_free = (normalize_pricing e).is_free ∧
      (normalize_pricing (normalize_pricing e)).price = (normalize_pricing e).price ∧
      (normalize_pricing (normalize_pricing e)).currency = (normalize_pricing e).currency := by
  intro e
  rw [normalize_pricing_idem e]
  exact ⟨rfl, rfl, rfl⟩

/-- Claim C2, counterexample: for an event with no price and is_free false
(every field absent), after normalize_pricing neither of the claim's two
states holds — the event is not free, and no price is present — so the
claimed dichotomy is violated. -/
theorem C2_counterexample :
    pricing_free_invariant (normalize_pricing emptyEvent) = false ∧
    pricing_priced_invariant (normalize_pricing emptyEvent) = false := by
  constructor
  · decide
  · decide

/-- Claim C2 (amended): after normalize_pricing, exactly one of three states
holds: the event is free with price and currency absent, or a (truthy) price
is present carrying the resolved symbol whenever the currency is known, or
the event is not free and has no (truthy) price. -/
theorem C2_amended_exactly_one :
    ∀ e : Event,
      exactlyOneOfThree (pricing_free_invariant (normalize_pricing e))
        (pricing_priced_invariant (normalize_pricing e))
        (pricing_unpriced_state (normalize_pricing e)) := by
  intro e
  by_cases hz : is_zero_price e.price = true
  · have h1 : normalize_pricing e = { e with is_free := true, price := none, currency := none } := by
      show apply_currency_symbol (apply_free_rules e) = _
      rw [apply_free_rules_of_zero e hz]
      exact apply_currency_symbol_not_both
        { e with is_free := true, price := none, currency := none } rfl
    rw [h1]
    left
    exact ⟨rfl, rfl, rfl⟩
  · rw [Bool.not_eq_true] at hz
    by_cases hf : e.is_free = true
    · have h1 : normalize_pricing e = { e with price := none, currency := none } := by
        show apply_currency_symbol (apply_free_rules e) = _
        rw [apply_free_rules_of_free e hz hf]
        exact apply_currency_symbol_not_both { e with price := none, currency := none } rfl
      rw [h1]
      left
      exact ⟨by simp [pricing_free_invariant, hf], rfl, by simp [pricing_unpriced_state, hf]⟩
    · rw [Bool.not_eq_true] at hf
      rw [show normalize_pricing e = apply_currency_symbol e from by
        show apply_currency_symbol (apply_free_rules e) = _
        rw [apply_free_rules_of_other e hz hf]]
      by_cases hc : (truthy e.price && truthy e.currency) = true
      · have hcp : truthy e.price = true := by
          rw [Bool.and_eq_true] at hc
          exact hc.1
        have hcc : truthy e.currency = true := by
          rw [Bool.and_eq_true] at hc
          exact hc.2
        by_cases hsw : strStarts (e.price.getD "") (resolved_symbol e) = true
        · rw [apply_currency_symbol_of_started e hc hsw]
          right; left
          refine ⟨by simp [pricing_free_invariant, hf], ?_,
            by simp [pricing_unpriced_state, hcp]⟩
          simp only [pricing_priced_invariant, hcp, Bool.true_and]
          cases hcur : e.currency with
          | none => rfl
          | some c =>
            cases hlook : currency_symbols.lookup c with
            | none => simp [hlook]
            | some sym =>
              simp only [hlook]
              have hres : resolved_symbol e = sym := by
                simp [resolved_symbol, hcur, hlook]
              rw [← hres]
              exact hsw
        · rw [Bool.not_eq_true] at hsw
          rw [apply_currency_symbol_of_unstarted e hc hsw]
          have hcp2 : truthy (some (resolved_symbol e ++ e.price.getD "")) = true :=
            truthy_append _ _ (resolved_symbol_data_ne_nil e)
          right; left
          refine ⟨by simp [pricing_free_invariant, hf], ?_,
            by simp [pricing_unpriced_state, hcp2]⟩
          simp only [pricing_priced_invariant, hcp2, Bool.true_and]
          cases hcur : e.currency with
          | none => rfl
          | some c =>
            cases hlook : currency_symbols.lookup c with
            | none => simp [hlook]
            | some sym =>
              simp only [hlook]
              have hres : resolved_symbol e = sym := by
                simp [resolved_symbol, hcur, hlook]
              rw [hres]
              exact strStarts_append_self sym (e.price.getD "")
      · rw [Bool.not_eq_true] at hc
        rw [apply_currency_symbol_not_both e hc]
        by_cases hp : truthy e.price = true
        · rw [hp, Bool.true_and] at hc
          right; left
          refine ⟨by simp [pricing_free_invariant, hf], ?_,
            by simp [pricing_unpriced_state, hp]⟩
          simp only [pricing_priced_invariant, hp, Bool.true_and]
          cases hcur : e.currency with
          | none => rfl
          | some c =>
            have hce : c = "" := by
              rw [hcur] at hc
              exact (truthy_some_false_iff c).mp hc
            subst hce
            simp [(show currency_symbols.lookup "" = none by decide)]
        · rw [Bool.not_eq_true] at hp
          right; right
          exact ⟨by simp [pricing_free_invariant, hf],
            by simp [pricing_priced_invariant, hp],
            by simp [pricing_unpriced_state, hf, hp]⟩

/-- Claim C3, counterexample: on an event whose price already carries its
currency symbol ("$25.00", USD), the code leaves the price unchanged while
the claim's unconditional-prefix wording would produce "$$25.00". -/
theorem C3_counterexample :
    (normalize_pricing evPrefixedPrice).price = some "$25.00" ∧
    (normalize_pricing_claimed evPrefixedPrice).price = some "$$25.00" := by
  constructor
  · decide
  · decide

/-- Claim C3 (amended): normalize_pricing applies the claimed rules in the
claimed precedence — zero price, then is_free clearing, then symbol prefixing
when both price and currency are present — with the prefix applied only when
the price does not already start with the resolved symbol. -/
theorem C3_amended_precedence :
    ∀ e : Event, normalize_pricing e = normalize_pricing_spec e := by
  intro e
  by_cases hz : is_zero_price e.price = true
  · rw [show normalize_pricing e = { e with is_free := true, price := none, currency := none }
      from by
        show apply_currency_symbol (apply_free_rules e) = _
        rw [apply_free_rules_of_zero e hz]
        exact apply_currency_symbol_not_both
          { e with is_free := true, price := none, currency := none } rfl]
    simp only [normalize_pricing_spec]
    rw [if_pos hz]
  · rw [Bool.not_eq_true] at hz
    by_cases hf : e.is_free = true
    · rw [show normalize_pricing e = { e with price := none, currency := none } from by
        show apply_currency_symbol (apply_free_rules e) = _
        rw [apply_free_rules_of_free e hz hf]
        exact apply_currency_symbol_not_both { e with price := none, currency := none } rfl]
      simp only [normalize_pricing_spec]
      rw [if_neg (by simp [hz]), if_pos hf]
    · rw [Bool.not_eq_true] at hf
      rw [show normalize_pricing e = apply_currency_symbol e from by
        show apply_currency_symbol (apply_free_rules e) = _
        rw [apply_free_rules_of_other e hz hf]]
      simp only [normalize_pricing_spec]
      rw [if_neg (by simp [hz]), if_neg (by simp [hf])]
      rfl

/-- Claim C9: format_display_date is absent exactly on a falsy start_date,
otherwise composes start_date with start_time (default "00:00") into the
"<weekday>, <month> <day>, <year> at <hh>:<mm> <AM/PM>" rendering, falling
back to the raw start_date on parse failure; on 2026-03-01 with 14:00 it
yields "Sun, Mar 01, 2026 at 02:00 PM", with no time "…12:00 AM", and with
no date the result is absent. -/
theorem C9_format_display_date :
    (∀ e : Event, format_display_date e = format_display_date_spec e) ∧
    format_display_date evMar1 = some "Sun, Mar 01, 2026 at 02:00 PM" ∧
    format_display_date evMar1NoTime = some "Sun, Mar 01, 2026 at 12:00 AM" ∧
    format_display_date emptyEvent = none := by
  refine ⟨?_, by decide, by decide, rfl⟩
  intro e
  cases hsd : e.start_date with
  | none => simp [format_display_date, format_display_date_spec, truthy, hsd]
  | some s =>
    by_cases hs : s = ""
    · subst hs
      simp [format_display_date, format_display_date_spec, truthy, hsd]
    · simp [format_display_date, format_display_date_spec, truthy, hs, hsd]

/-! The final sort of transform_events. -/

theorem recordLE_trans :
    ∀ a b c : OutRecord, recordLE a b = true → recordLE b c = true → recordLE a c = true := by
  intro a b c h1 h2
  simp only [recordLE, decide_eq_true_eq] at h1 h2 ⊢
  exact le_trans h1 h2

theorem recordLE_total : ∀ a b : OutRecord, (recordLE a b || recordLE b a) = true := by
  intro a b
  simp only [recordLE, Bool.or_eq_true, decide_eq_true_eq]
  exact le_total (sortKey a) (sortKey b)

theorem sortKey_of_undated (r : OutRecord) (h : truthy r.start_date = false) :
    sortKey r = "9999-99-99" :=
  orElseStr_of_falsy r.base.start_date "9999-99-99" h

theorem listLtChar_iff : ∀ a b : List Char, listLtChar a b = true ↔ a < b := by
  intro a
  induction a with
  | nil =>
    intro b
    cases b with
    | nil =>
      simp only [listLtChar]
      constructor
      · intro h
        exact absurd h Bool.false_ne_true
      · intro h
        cases h
    | cons y ys =>
      simp only [listLtChar]
      constructor
      · intro _
        exact List.Lex.nil
      · intro _
        trivial
  | cons x xs ih =>
    intro b
    cases b with
    | nil =>
      simp only [listLtChar]
      constructor
      · intro h
        exact absurd h Bool.false_ne_true
      · intro h
        cases h
    | cons y ys =>
      by_cases hxy : x < y
      · simp only [listLtChar, if_pos hxy]
        constructor
        · intro _
          exact List.Lex.rel hxy
        · intro _
          trivial
      · by_cases hyx : y < x
        · simp only [listLtChar, if_neg hxy, if_pos hyx]
          constructor
          · intro h
            exact absurd h Bool.false_ne_true
          · intro h
            cases h with
            | cons h2 => exact absurd hyx (lt_irrefl x)
            | rel h2 => exact absurd h2 hxy
        · have hxe : x = y := le_antisymm (not_lt.mp hyx) (not_lt.mp hxy)
          subst hxe
          simp only [listLtChar, if_neg hxy, if_neg hyx]
          rw [ih ys]
          constructor
          · intro h
            exact List.Lex.cons h
          · intro h
            cases h with
            | cons h2 => exact h2
            | rel h2 => exact absurd h2 hxy

theorem pyStrLt_iff (a b : String) : pyStrLt a b = true ↔ a < b := by
  rw [String.lt_iff_toList_lt]
  exact listLtChar_iff a.data b.data

theorem pyStrLE_iff (a b : String) : pyStrLE a b = true ↔ a ≤ b := by
  simp only [pyStrLE, Bool.not_eq_true']
  constructor
  · intro h
    refine not_lt.mp ?_
    rw [← pyStrLt_iff]
    simp [h]
  · intro h
    cases hv : pyStrLt b a
    · rfl
    · exact absurd ((pyStrLt_iff b a).mp hv) (not_lt.mpr h)

theorem pairwise_recordLE_of_py (l : List OutRecord)
    (h : l.Pairwise (fun a b => pyStrLE (sortKey a) (sortKey b) = true)) :
    l.Pairwise (fun a b => recordLE a b = true) := by
  refine h.imp ?_
  intro a b hab
  simp only [recordLE, decide_eq_true_eq]
  exact (pyStrLE_iff _ _).mp hab

/-- Claim C1, counterexample: on an input holding an event with no start_date
followed by one whose start_date "~" is unparseable (hence kept by the filter)
and sorts above the sentinel "9999-99-99", transform_events puts the undated
record before the dated one, so the claimed shape — every record without a
start_date after all records that have one — fails. -/
theorem C1_counterexample :
    ¬ undated_after_dated (transform_events [evNoDate, evTildeDate] cutoff0) := by
  have hsorted : (transform_enriched [evNoDate, evTildeDate] cutoff0).Pairwise
      (fun a b => recordLE a b = true) :=
    pairwise_recordLE_of_py _ (by decide)
  have heq : transform_events [evNoDate, evTildeDate] cutoff0 =
      transform_enriched [evNoDate, evTildeDate] cutoff0 := by
    show (transform_enriched [evNoDate, evTildeDate] cutoff0).mergeSort recordLE = _
    exact List.mergeSort_of_sorted hsorted
  rw [heq]
  unfold undated_after_dated
  decide

/-- Claim C1 (amended): the output of transform_events is sorted ascending by
the sort key (start_date, with an absent or empty value replaced by the
sentinel "9999-99-99"): every record's key is at most every later record's
key; hence a record without a start_date — whose key is the sentinel — is
never followed by a record with a key below the sentinel (in particular never
by one with a valid ISO start_date); and the sort is stable: for every key,
the records carrying that key appear exactly as in the pre-sort pipeline
output. -/
theorem C1_amended_sorted_stable :
    ∀ (events : List Event) (cutoff : Date),
      (transform_events events cutoff).Pairwise (fun a b => sortKey a ≤ sortKey b) ∧
      (transform_events events cutoff).Pairwise
        (fun a b => truthy a.start_date = false → "9999-99-99" ≤ sortKey b) ∧
      ∀ k : String,
        (transform_events events cutoff).filter (fun r => sortKey r == k) =
          (transform_enriched events cutoff).filter (fun r => sortKey r == k) := by
  intro events cutoff
  have hs := List.sorted_mergeSort recordLE_trans recordLE_total
    (transform_enriched events cutoff)
  have hs2 : (transform_events events cutoff).Pairwise (fun a b => sortKey a ≤ sortKey b) := by
    refine List.Pairwise.imp ?_ hs
    intro a b h
    simpa only [recordLE, decide_eq_true_eq] using h
  refine ⟨hs2, ?_, ?_⟩
  · refine List.Pairwise.imp ?_ hs2
    intro a b h hu
    rw [← sortKey_of_undated a hu]
    exact h
  · intro k
    have hfs : ((transform_enriched events cutoff).filter (fun r => sortKey r == k)).Sublist
        (transform_enriched events cutoff) := List.filter_sublist _
    have hpw : ((transform_enriched events cutoff).filter (fun r => sortKey r == k)).Pairwise
        (fun a b => recordLE a b = true) := by
      rw [List.pairwise_iff_forall_sublist]
      intro a b hab
      have ha := hab.subset (List.mem_cons_self a [b])
      have hb := hab.subset (List.mem_cons_of_mem a (List.mem_cons_self b []))
      have ha2 := (List.mem_filter.mp ha).2
      have hb2 := (List.mem_filter.mp hb).2
      rw [beq_iff_eq] at ha2 hb2
      simp [recordLE, ha2, hb2]
    have h2 : ((transform_enriched events cutoff).filter (fun r => sortKey r == k)).Sublist
        ((transform_enriched events cutoff).mergeSort recordLE) :=
      List.sublist_mergeSort recordLE_trans recordLE_total hpw hfs
    have h3 : ((transform_enriched events cutoff).filter (fun r => sortKey r == k)).filter
        (fun r => sortKey r == k) =
          (transform_enriched events cutoff).filter (fun r => sortKey r == k) :=
      List.filter_eq_self.mpr fun a ha => (List.mem_filter.mp ha).2
    have h4 : ((transform_enriched events cutoff).filter (fun r => sortKey r == k)).Sublist
        (((transform_enriched events cutoff).mergeSort recordLE).filter
          (fun r => sortKey r == k)) := by
      have h5 := h2.filter (fun r => sortKey r == k)
      rwa [h3] at h5
    have h6 : (((transform_enriched events cutoff).mergeSort recordLE).filter
        (fun r => sortKey r == k)).Perm
          ((transform_enriched events cutoff).filter (fun r => sortKey r == k)) :=
      (List.mergeSort_perm (transform_enriched events cutoff) recordLE).filter _
    have h7 := h4.eq_of_length h6.length_eq.symm
    show ((transform_enriched events cutoff).mergeSort recordLE).filter
      (fun r => sortKey r == k) = _
    exact h7.symm

end EventbriteExtractor
